import Mathlib

/-!
Verification of the Romana policy canonicalizer
(`pkg/util/policy/hasher/types.go`) and of the firewall chain-lifecycle
ensure operations, as a shallow embedding in Lean.

Conventions of the embedding:
* Go `uint` / `uint64` values are `Nat`s; where Go wraparound arithmetic
  matters it is written explicitly as arithmetic modulo `2 ^ 64`.
* Go slices are `List`s.
* `sort.Sort(x)` (the standard library's comparison sort) is modelled as a
  stable sort (`List.insertionSort`) by the key that the receiver's `Less`
  method compares.  `sort.Sort` only guarantees the result is ordered by
  `Less` — it is documented as NOT stable — so the stable model is one
  deterministic refinement of that contract, and every theorem about it
  either carries a tie-freeness hypothesis (`KeyInj`) making the result
  independent of the tie-breaking order or uses only facts (permutation,
  length) that hold for every refinement.  Where a claim turns on the
  tie-breaking behavior itself, the actual unstable quicksort of the Go
  standard library (releases before 1.19) is embedded as well
  (`quickSortGo` below) and the claim is settled against it.
* Go string comparison `<` is byte-wise lexicographic on UTF-8 bytes, which
  coincides with Lean's code-point lexicographic `<` on `String`.
-/

namespace Romana

/-- Go unsigned subtraction `a - b` on 64-bit `uint`: wraparound modulo
`2 ^ 64` (faithful for `a, b < 2 ^ 64`). -/
def usub (a b : Nat) : Nat := (a + 2 ^ 64 - b) % 2 ^ 64

/-! ### Sorting by a key

`sort.Sort` on the receiver types of the hasher always compares a key
computed from each element (`EndpointSortGroup.key`, the port number, the
`low - high` value of a port range).  We develop the small amount of theory
needed about stable sorting by a key. -/

/-- The ordering relation induced by a sort key. -/
def keyLe {α β : Type} [LinearOrder β] (key : α → β) (a b : α) : Prop :=
  key a ≤ key b

instance keyLeDecidable {α β : Type} [LinearOrder β] (key : α → β) :
    DecidableRel (keyLe key) :=
  fun a b => inferInstanceAs (Decidable (key a ≤ key b))

instance keyLeTotal {α β : Type} [LinearOrder β] (key : α → β) :
    IsTotal α (keyLe key) :=
  ⟨fun a b => le_total (key a) (key b)⟩

instance keyLeTrans {α β : Type} [LinearOrder β] (key : α → β) :
    IsTrans α (keyLe key) :=
  ⟨fun _ _ _ hab hbc => le_trans hab hbc⟩

/-- Stable sort by a key: the model of `sort.Sort` used throughout. -/
def sortByKey {α β : Type} [LinearOrder β] (key : α → β) (l : List α) :
    List α :=
  l.insertionSort (keyLe key)

theorem sortByKey_perm {α β : Type} [LinearOrder β] (key : α → β)
    (l : List α) : (sortByKey key l).Perm l :=
  List.perm_insertionSort (keyLe key) l

theorem sortByKey_sorted {α β : Type} [LinearOrder β] (key : α → β)
    (l : List α) : List.Sorted (keyLe key) (sortByKey key l) :=
  List.sorted_insertionSort (keyLe key) l

/-- `key` separates the elements of `l`: no two distinct members share a
key.  Under this condition the result of sorting by `key` is independent of
the tie-breaking order of the sorting algorithm. -/
def KeyInj {α β : Type} (key : α → β) (l : List α) : Prop :=
  ∀ a ∈ l, ∀ b ∈ l, key a = key b → a = b

instance KeyInjDecidable {α β : Type} [DecidableEq α] [DecidableEq β]
    (key : α → β) (l : List α) : Decidable (KeyInj key l) :=
  inferInstanceAs (Decidable (∀ a ∈ l, ∀ b ∈ l, key a = key b → a = b))

theorem eq_of_map_eq_of_perm_of_keyInj {α β : Type} (key : α → β) :
    ∀ {l₁ l₂ : List α}, l₁.Perm l₂ → l₁.map key = l₂.map key →
      KeyInj key l₁ → l₁ = l₂
  | [], [], _, _, _ => rfl
  | [], _ :: _, hperm, _, _ => absurd hperm (by simp)
  | _ :: _, [], hperm, _, _ => absurd hperm (by simp)
  | a :: t₁, b :: t₂, hperm, hmap, hinj => by
    have hkey : key a = key b := by
      simpa using congrArg (fun l => l.headD (key a)) hmap
    have hb : b ∈ a :: t₁ := hperm.symm.subset (List.mem_cons_self b t₂)
    have hab : a = b := hinj a (List.mem_cons_self a t₁) b hb hkey
    subst hab
    have ht : t₁.Perm t₂ := hperm.cons_inv
    have htmap : t₁.map key = t₂.map key := by
      simpa using congrArg List.tail hmap
    have htinj : KeyInj key t₁ := fun x hx y hy =>
      hinj x (List.mem_cons_of_mem a hx) y (List.mem_cons_of_mem a hy)
    exact congrArg (a :: ·) (eq_of_map_eq_of_perm_of_keyInj key ht htmap htinj)

theorem eq_of_perm_of_sorted_keyInj {α β : Type} [LinearOrder β]
    (key : α → β) {l₁ l₂ : List α} (hperm : l₁.Perm l₂)
    (hs₁ : List.Sorted (keyLe key) l₁) (hs₂ : List.Sorted (keyLe key) l₂)
    (hinj : KeyInj key l₁) : l₁ = l₂ := by
  have hmap : l₁.map key = l₂.map key :=
    List.eq_of_perm_of_sorted (hperm.map key)
      (List.Pairwise.map key (fun _ _ h => h) hs₁)
      (List.Pairwise.map key (fun _ _ h => h) hs₂)
  exact eq_of_map_eq_of_perm_of_keyInj key hperm hmap hinj

/-- Sorting by a key is invariant under permutation of the input, provided
the key separates the elements. -/
theorem sortByKey_congr_perm {α β : Type} [LinearOrder β] (key : α → β)
    {l₁ l₂ : List α} (h : l₁.Perm l₂) (hinj : KeyInj key l₁) :
    sortByKey key l₁ = sortByKey key l₂ := by
  refine eq_of_perm_of_sorted_keyInj key ?_ (sortByKey_sorted key l₁)
    (sortByKey_sorted key l₂) ?_
  · exact (sortByKey_perm key l₁).trans (h.trans (sortByKey_perm key l₂).symm)
  · intro a ha b hb
    exact hinj a ((sortByKey_perm key l₁).subset ha)
      b ((sortByKey_perm key l₁).subset hb)

/-- Sorting by a key is idempotent on lists whose elements the key
separates.  (The proof does not use the stability of the model: a second
sorted, key-separated permutation is unique, so this holds for EVERY
correct refinement of `sort.Sort` — while on a tied pair idempotence can
genuinely fail, see `PolicyToCanonicalGo_not_idempotent`.) -/
theorem sortByKey_idem_of_keyInj {α β : Type} [LinearOrder β] (key : α → β)
    (l : List α) (hinj : KeyInj key l) :
    sortByKey key (sortByKey key l) = sortByKey key l := by
  refine eq_of_perm_of_sorted_keyInj key
    (sortByKey_perm key (sortByKey key l))
    (sortByKey_sorted key (sortByKey key l)) (sortByKey_sorted key l) ?_
  intro a ha b hb
  exact hinj a
      ((sortByKey_perm key l).subset
        ((sortByKey_perm key (sortByKey key l)).subset ha))
    b ((sortByKey_perm key l).subset
        ((sortByKey_perm key (sortByKey key l)).subset hb))

/-! ### Data model

The `common` package types the hasher operates on (`common.Policy`,
`common.Endpoint`, `common.RomanaIngress`, `common.Rule`,
`common.PortRange`), with exactly the fields the source reads and writes.
Optional (`*uint64`) network-ID fields are `Option Nat`. -/

/-- `common.Endpoint` as read by `EndpointToString`. -/
structure Endpoint where
  Peer : String := ""
  Cidr : String := ""
  Dest : String := ""
  TenantID : Nat := 0
  TenantName : String := ""
  TenantExternalID : String := ""
  TenantNetworkID : Option Nat := none
  SegmentID : Nat := 0
  SegmentName : String := ""
  SegmentExternalID : String := ""
  SegmentNetworkID : Option Nat := none
deriving DecidableEq, Inhabited

/-- `common.PortRange` is `[2]uint`: the pair (low, high). -/
abbrev PortRange := Nat × Nat

/-- `common.Rule` as read by `RuleToCanonical` / `RuleToString`. -/
structure Rule where
  Protocol : String := ""
  Ports : List Nat := []
  PortRanges : List PortRange := []
  IcmpType : Nat := 0
  IcmpCode : Nat := 0
  IsStateful : Bool := false
deriving DecidableEq

/-- `common.RomanaIngress`. -/
structure RomanaIngress where
  Peers : List Endpoint := []
  Rules : List Rule := []
deriving DecidableEq

/-- `common.Policy` (the fields the canonicalizer touches; fields the Go
zero value leaves empty default to their zero values here). -/
structure Policy where
  Direction : String := ""
  Description : String := ""
  Name : String := ""
  ID : Nat := 0
  ExternalID : String := ""
  AppliedTo : List Endpoint := []
  Peers : List Endpoint := []
  Rules : List Rule := []
  Ingress : List RomanaIngress := []
deriving DecidableEq

/-! ### The canonicalizer (`pkg/util/policy/hasher/types.go`) -/

/-- `EndpointToString`: delimiter-free concatenation
`fmt.Sprintf("%s%s%s%d%s%s%d%d%s%s%d", e.Peer, e.Cidr, e.Dest, e.TenantID,
e.TenantName, e.TenantExternalID, tid, e.SegmentID, e.SegmentName,
e.SegmentExternalID, sid)` where `tid`/`sid` default an absent
`TenantNetworkID`/`SegmentNetworkID` to 0. -/
def EndpointToString (e : Endpoint) : String :=
  e.Peer ++ e.Cidr ++ e.Dest ++ toString e.TenantID ++ e.TenantName ++
    e.TenantExternalID ++ toString (e.TenantNetworkID.getD 0) ++
    toString e.SegmentID ++ e.SegmentName ++ e.SegmentExternalID ++
    toString (e.SegmentNetworkID.getD 0)

/-- `NewEndpointList(endpoints).Sort().List()`: sort endpoints by their
precomputed `EndpointToString` key (`EndpointList.Less` compares keys). -/
def sortEndpoints (l : List Endpoint) : List Endpoint :=
  sortByKey EndpointToString l

/-- The key `PortRangeSlice.Less` compares: `p[0]-p[1]` computed in Go
`uint` arithmetic (wraparound subtraction). -/
def PortRangeSlice.key (p : PortRange) : Nat := usub p.1 p.2

/-- `PortRangeSlice.Less`: `p[i][0]-p[i][1] < p[j][0]-p[j][1]` on `uint`. -/
def PortRangeSlice.Less (p q : PortRange) : Bool :=
  decide (PortRangeSlice.key p < PortRangeSlice.key q)

/-- `sort.Sort(PortRangeSlice(ranges))`. -/
def sortPortRanges (l : List PortRange) : List PortRange :=
  sortByKey PortRangeSlice.key l

/-- `sort.Sort(UintSlice(ports))`: ascending numeric sort
(`UintSlice.Less` is `p[i] < p[j]`). -/
def sortPorts (l : List Nat) : List Nat :=
  sortByKey id l

/-- `RuleToCanonical`: sort `Ports` and `PortRanges`, keep the remaining
fields. -/
def RuleToCanonical (unsorted : Rule) : Rule :=
  { unsorted with
    Ports := sortPorts unsorted.Ports
    PortRanges := sortPortRanges unsorted.PortRanges }

/-- `RuleToString`: protocol, then each canonical port as decimal, then
each canonical range as `%d%d`, then `%d%d%t` of IcmpType, IcmpCode,
IsStateful.  (The protocol is read from the original argument, the rest
from the canonicalized copy, as in the source.) -/
def RuleToString (rule : Rule) : String :=
  let newRule := RuleToCanonical rule
  rule.Protocol ++
    String.join (newRule.Ports.map (fun p => toString p)) ++
    String.join (newRule.PortRanges.map (fun p => toString p.1 ++ toString p.2)) ++
    toString newRule.IcmpType ++ toString newRule.IcmpCode ++
    toString newRule.IsStateful

/-- `IngressToCanonical`: sort `Peers`; map `RuleToCanonical` over `Rules`
in order (the `Rules` list itself is NOT sorted). -/
def IngressToCanonical (unsorted : RomanaIngress) : RomanaIngress :=
  { Peers := sortEndpoints unsorted.Peers
    Rules := unsorted.Rules.map RuleToCanonical }

/-- `PolicyToCanonical`: copy the five scalar fields, sort `AppliedTo`,
canonicalize each `Ingress` entry in order.  The remaining fields of the
result (`Peers`, `Rules`) are left at their Go zero values. -/
def PolicyToCanonical (unsorted : Policy) : Policy :=
  { Direction := unsorted.Direction
    Description := unsorted.Description
    Name := unsorted.Name
    ID := unsorted.ID
    ExternalID := unsorted.ExternalID
    AppliedTo := sortEndpoints unsorted.AppliedTo
    Ingress := unsorted.Ingress.map IngressToCanonical }

/-- Observable value of the ARGUMENT of `PolicyToCanonical` after the call
returns.  `RuleToCanonical` copies the `Rule` struct (`sorted := unsorted`),
which copies the slice headers, so `sort.Sort` reorders the caller's backing
arrays for `Ports` and `PortRanges` in place; every other collection is
rebuilt into freshly allocated slices and the argument's copy of it is left
untouched. -/
def PolicyToCanonicalPost (p : Policy) : Policy :=
  { p with
    Ingress := p.Ingress.map fun i =>
      { i with Rules := i.Rules.map RuleToCanonical } }

/-! ### Idempotence (claim C3)

Idempotence holds where no list hands the sort a tied pair of distinct
elements: the sorted key-separated permutation is unique, so a second sort
returns its input for EVERY correct refinement of `sort.Sort`.  On a tied
pair it genuinely fails on the real algorithm — see `quickSortGo` and the
counterexample below.  (`Ports` needs no hypothesis: its sort key is the
port value itself, so tied ports are equal and any reordering of them is
value-invisible.) -/

theorem RuleToCanonical_idem (r : Rule)
    (hinj : KeyInj PortRangeSlice.key r.PortRanges) :
    RuleToCanonical (RuleToCanonical r) = RuleToCanonical r := by
  have h1 : sortPorts (sortPorts r.Ports) = sortPorts r.Ports :=
    sortByKey_idem_of_keyInj id r.Ports fun a _ b _ h => h
  have h2 : sortPortRanges (sortPortRanges r.PortRanges) =
      sortPortRanges r.PortRanges :=
    sortByKey_idem_of_keyInj PortRangeSlice.key r.PortRanges hinj
  simp [RuleToCanonical, sortPorts, sortPortRanges] at *
  exact ⟨h1, h2⟩

theorem IngressToCanonical_idem (i : RomanaIngress)
    (hp : KeyInj EndpointToString i.Peers)
    (hr : ∀ r ∈ i.Rules, KeyInj PortRangeSlice.key r.PortRanges) :
    IngressToCanonical (IngressToCanonical i) = IngressToCanonical i := by
  have h1 : sortEndpoints (sortEndpoints i.Peers) = sortEndpoints i.Peers :=
    sortByKey_idem_of_keyInj EndpointToString i.Peers hp
  have h2 : (i.Rules.map RuleToCanonical).map RuleToCanonical =
      i.Rules.map RuleToCanonical := by
    rw [List.map_map]
    exact List.map_congr_left fun r hrm => RuleToCanonical_idem r (hr r hrm)
  simp [IngressToCanonical, h1, h2]

/-- C3 (amended): canonicalization is idempotent —
`PolicyToCanonical (PolicyToCanonical p) = PolicyToCanonical p` — provided
no two distinct endpoints of `p.AppliedTo` or of an ingress entry's `Peers`
share an `EndpointToString` key and no two distinct ranges of a rule's
`PortRanges` share the `low - high` sort key.  Without that proviso the
claim fails on Go's unstable `sort.Sort`: see
`PolicyToCanonicalGo_not_idempotent`. -/
theorem PolicyToCanonical_idem (p : Policy)
    (hA : KeyInj EndpointToString p.AppliedTo)
    (hP : ∀ i ∈ p.Ingress, KeyInj EndpointToString i.Peers)
    (hR : ∀ i ∈ p.Ingress, ∀ r ∈ i.Rules,
      KeyInj PortRangeSlice.key r.PortRanges) :
    PolicyToCanonical (PolicyToCanonical p) = PolicyToCanonical p := by
  have h1 : sortEndpoints (sortEndpoints p.AppliedTo) =
      sortEndpoints p.AppliedTo :=
    sortByKey_idem_of_keyInj EndpointToString p.AppliedTo hA
  have h2 : (p.Ingress.map IngressToCanonical).map IngressToCanonical =
      p.Ingress.map IngressToCanonical := by
    rw [List.map_map]
    exact List.map_congr_left fun i him =>
      IngressToCanonical_idem i (hP i him) (hR i him)
  simp [PolicyToCanonical, h1, h2]

/-- Witness for C3 (amended): a concrete policy with pairwise distinct
endpoint keys and range widths is canonicalized to a fixed point. -/
theorem PolicyToCanonical_idem_witness :
    PolicyToCanonical (PolicyToCanonical
        { AppliedTo := [{ TenantID := 4 }, { TenantID := 3 }]
          Ingress := [{ Peers := [{ TenantID := 5 }]
                        Rules := [{ Protocol := "UDP", Ports := [9, 7],
                                    PortRanges := [(1, 9), (4, 5)] }] }] }) =
      PolicyToCanonical
        { AppliedTo := [{ TenantID := 4 }, { TenantID := 3 }]
          Ingress := [{ Peers := [{ TenantID := 5 }]
                        Rules := [{ Protocol := "UDP", Ports := [9, 7],
                                    PortRanges := [(1, 9), (4, 5)] }] }] } :=
  PolicyToCanonical_idem _ (by decide) (by decide) (by decide)

/-! ### The actual `sort.Sort` algorithm (for the C3 counterexample)

A faithful embedding of the Go standard library's `sort.Sort` as shipped in
the releases this repository builds against (Go 1.8 through 1.18,
`sort/sort.go`): intro-quicksort with `medianOfThree` pivot selection (the
Tukey ninther above 40 elements), the duplicate-pivot `protect` phase, a
heapsort fallback when the depth budget `2 * bits(n)` is exhausted, and a
gap-6 shell pass plus insertion sort for sub-slices of at most 12 elements.
This sort is documented as NOT stable, and indeed it swaps a tied adjacent
pair of an otherwise sorted 13-element slice (exercised below).

The state is a `List` indexed like the Go slice; `data.Less(i, j)` and
`data.Swap(i, j)` become `lessAt` and `aswap`.  Go's unbounded `for` loops
become structurally recursive functions on an iteration budget (`fuel`)
chosen large enough (`hi + 1` per loop) that the loop always exits through
its own guard, never by exhaustion, so the translation computes exactly
what the Go loop computes. -/

/-- `data.Swap(i, j)`. -/
def aswap {α : Type} [Inhabited α] (d : List α) (i j : Nat) : List α :=
  (d.set i (d.getD j default)).set j (d.getD i default)

/-- `data.Less(i, j)`. -/
def lessAt {α : Type} [Inhabited α] (less : α → α → Bool) (d : List α)
    (i j : Nat) : Bool :=
  less (d.getD i default) (d.getD j default)

/-- Inner loop of Go `insertionSort`:
`for j := i; j > a && data.Less(j, j-1); j-- { data.Swap(j, j-1) }`. -/
def insertLoopGo {α : Type} [Inhabited α] (less : α → α → Bool) (a : Nat) :
    Nat → List α → Nat → List α
  | 0, d, _ => d
  | fuel+1, d, j =>
    if a < j && lessAt less d j (j-1) then
      insertLoopGo less a fuel (aswap d j (j-1)) (j-1)
    else d

/-- Outer loop of Go `insertionSort`: `for i := a + 1; i < b; i++`. -/
def insertOuterGo {α : Type} [Inhabited α] (less : α → α → Bool) (a b : Nat) :
    Nat → List α → Nat → List α
  | 0, d, _ => d
  | fuel+1, d, i =>
    if i < b then insertOuterGo less a b fuel (insertLoopGo less a b d i) (i+1)
    else d

/-- Go `insertionSort(data, a, b)`. -/
def insertionSortGo {α : Type} [Inhabited α] (less : α → α → Bool)
    (d : List α) (a b : Nat) : List α :=
  insertOuterGo less a b b d (a+1)

/-- Loop of Go `siftDown`: walk down from `root`, following the larger
child, until the heap property holds. -/
def siftDownLoopGo {α : Type} [Inhabited α] (less : α → α → Bool)
    (hi first : Nat) : Nat → List α → Nat → List α
  | 0, d, _ => d
  | fuel+1, d, root =>
    let child0 := 2*root + 1
    if child0 ≥ hi then d
    else
      let child :=
        if child0 + 1 < hi && lessAt less d (first+child0) (first+child0+1)
        then child0 + 1 else child0
      if !(lessAt less d (first+root) (first+child)) then d
      else siftDownLoopGo less hi first fuel
        (aswap d (first+root) (first+child)) child

/-- Go `siftDown(data, lo, hi, first)`. -/
def siftDownGo {α : Type} [Inhabited α] (less : α → α → Bool)
    (d : List α) (lo hi first : Nat) : List α :=
  siftDownLoopGo less hi first (hi+1) d lo

/-- Heap-building loop of Go `heapSort`:
`for i := (hi - 1) / 2; i >= 0; i--`. -/
def heapBuildGo {α : Type} [Inhabited α] (less : α → α → Bool)
    (hi first : Nat) : Nat → List α → List α
  | 0, d => d
  | k+1, d => heapBuildGo less hi first k (siftDownGo less d k hi first)

/-- Pop loop of Go `heapSort`: `for i := hi - 1; i >= 0; i--`. -/
def heapPopGo {α : Type} [Inhabited α] (less : α → α → Bool) (first : Nat) :
    Nat → List α → List α
  | 0, d => d
  | i+1, d =>
    heapPopGo less first i
      (siftDownGo less (aswap d first (first + i)) 0 i first)

/-- Go `heapSort(data, a, b)`. -/
def heapSortGo {α : Type} [Inhabited α] (less : α → α → Bool)
    (d : List α) (a b : Nat) : List α :=
  let first := a
  let hi := b - a
  heapPopGo less first hi (heapBuildGo less hi first ((hi-1)/2 + 1) d)

/-- Go `medianOfThree(data, m1, m0, m2)`: move the median of the three
values into position `m1`. -/
def medianOfThreeGo {α : Type} [Inhabited α] (less : α → α → Bool)
    (d0 : List α) (m1 m0 m2 : Nat) : List α :=
  let d1 := if lessAt less d0 m1 m0 then aswap d0 m1 m0 else d0
  if lessAt less d1 m2 m1 then
    let d2 := aswap d1 m2 m1
    if lessAt less d2 m1 m0 then aswap d2 m1 m0 else d2
  else d1

/-- First scan of Go `doPivot`:
`for ; a < c && data.Less(a, pivot); a++`. -/
def pivotScanA {α : Type} [Inhabited α] (less : α → α → Bool)
    (pivot c : Nat) : Nat → List α → Nat → Nat
  | 0, _, a => a
  | fuel+1, d, a =>
    if a < c && lessAt less d a pivot then pivotScanA less pivot c fuel d (a+1)
    else a

/-- `for ; b < c && !data.Less(pivot, b); b++` of Go `doPivot`. -/
def pivotScanB {α : Type} [Inhabited α] (less : α → α → Bool)
    (pivot c : Nat) : Nat → List α → Nat → Nat
  | 0, _, b => b
  | fuel+1, d, b =>
    if b < c && !(lessAt less d pivot b) then pivotScanB less pivot c fuel d (b+1)
    else b

/-- `for ; b < c && data.Less(pivot, c-1); c--` of Go `doPivot`. -/
def pivotScanC {α : Type} [Inhabited α] (less : α → α → Bool)
    (pivot b : Nat) : Nat → List α → Nat → Nat
  | 0, _, c => c
  | fuel+1, d, c =>
    if b < c && lessAt less d pivot (c-1) then pivotScanC less pivot b fuel d (c-1)
    else c

/-- Main partition loop of Go `doPivot`: scan `b` up, scan `c` down, swap
`data[b]` with `data[c-1]` until the pointers meet. -/
def pivotPartitionGo {α : Type} [Inhabited α] (less : α → α → Bool)
    (pivot hi : Nat) : Nat → List α → Nat → Nat → List α × Nat × Nat
  | 0, d, b, c => (d, b, c)
  | fuel+1, d, b, c =>
    let b1 := pivotScanB less pivot c (hi+1) d b
    let c1 := pivotScanC less pivot b1 (hi+1) d c
    if b1 ≥ c1 then (d, b1, c1)
    else pivotPartitionGo less pivot hi fuel (aswap d b1 (c1-1)) (b1+1) (c1-1)

/-- Duplicate-pivot detection of Go `doPivot`: `protect := hi-c < 5`, and
when `hi-c < (hi-lo)/4` sample three points for equality to the pivot,
setting `protect` when at least two are duplicates. -/
def pivotProtectCheckGo {α : Type} [Inhabited α] (less : α → α → Bool)
    (d : List α) (lo m hi pivot b c : Nat) : List α × Nat × Nat × Bool :=
  if hi - c < 5 then (d, b, c, true)
  else if hi - c < (hi - lo) / 4 then
    match (if !(lessAt less d pivot (hi-1)) then (aswap d c (hi-1), c + 1, 1)
           else (d, c, 0) : List α × Nat × Nat) with
    | (d1, c1, n1) =>
      match (if !(lessAt less d1 (b-1) pivot) then (b - 1, n1 + 1)
             else (b, n1) : Nat × Nat) with
      | (b1, n2) =>
        match (if !(lessAt less d1 m pivot) then (aswap d1 m (b1-1), b1 - 1, n2 + 1)
               else (d1, b1, n2) : List α × Nat × Nat) with
        | (d2, b2, n3) => (d2, b2, c1, decide (n3 > 1))
  else (d, b, c, false)

/-- `for ; a < b && !data.Less(b-1, pivot); b--` of the protect phase. -/
def protectScanB {α : Type} [Inhabited α] (less : α → α → Bool)
    (pivot a : Nat) : Nat → List α → Nat → Nat
  | 0, _, b => b
  | fuel+1, d, b =>
    if a < b && !(lessAt less d (b-1) pivot) then
      protectScanB less pivot a fuel d (b-1)
    else b

/-- `for ; a < b && data.Less(a, pivot); a++` of the protect phase. -/
def protectScanA {α : Type} [Inhabited α] (less : α → α → Bool)
    (pivot b : Nat) : Nat → List α → Nat → Nat
  | 0, _, a => a
  | fuel+1, d, a =>
    if a < b && lessAt less d a pivot then protectScanA less pivot b fuel d (a+1)
    else a

/-- Protect-phase loop of Go `doPivot`: gather pivot duplicates into
`data[b..c)`. -/
def protectLoopGo {α : Type} [Inhabited α] (less : α → α → Bool)
    (pivot hi : Nat) : Nat → List α → Nat → Nat → List α × Nat
  | 0, d, _, b => (d, b)
  | fuel+1, d, a, b =>
    let b1 := protectScanB less pivot a (hi+1) d b
    let a1 := protectScanA less pivot b1 (hi+1) d a
    if a1 ≥ b1 then (d, b1)
    else protectLoopGo less pivot hi fuel (aswap d a1 (b1-1)) (a1+1) (b1-1)

/-- Go `doPivot(data, lo, hi)`: choose the pivot (ninther above 40,
median-of-three otherwise), partition, detect duplicates, swap the pivot
into place; returns `(data, midlo, midhi)`. -/
def doPivotGo {α : Type} [Inhabited α] (less : α → α → Bool)
    (d0 : List α) (lo hi : Nat) : List α × Nat × Nat :=
  let m := (lo + hi) / 2
  let d1 :=
    if hi - lo > 40 then
      let s := (hi - lo) / 8
      medianOfThreeGo less
        (medianOfThreeGo less
          (medianOfThreeGo less d0 lo (lo+s) (lo+2*s)) m (m-s) (m+s))
        (hi-1) (hi-1-s) (hi-1-2*s)
    else d0
  let d2 := medianOfThreeGo less d1 lo m (hi-1)
  let pivot := lo
  let a0 := pivotScanA less pivot (hi-1) (hi+1) d2 (lo+1)
  match pivotPartitionGo less pivot hi (hi+1) d2 a0 (hi-1) with
  | (d3, b0, c0) =>
    match pivotProtectCheckGo less d3 lo m hi pivot b0 c0 with
    | (d4, b1, c1, protected_) =>
      match (if protected_ then protectLoopGo less pivot hi (hi+1) d4 a0 b1
             else (d4, b1)) with
      | (d5, b2) => (aswap d5 pivot (b2 - 1), b2 - 1, c1)

/-- Gap-6 shell pass of Go `quickSort`:
`for i := a + 6; i < b; i++ { if data.Less(i, i-6) { data.Swap(i, i-6) } }`. -/
def shellPassGo {α : Type} [Inhabited α] (less : α → α → Bool) (b : Nat) :
    Nat → List α → Nat → List α
  | 0, d, _ => d
  | fuel+1, d, i =>
    if i < b then
      shellPassGo less b fuel
        (if lessAt less d i (i-6) then aswap d i (i-6) else d) (i+1)
    else d

/-- The `b - a ≤ 12` tail of Go `quickSort`: when the slice has more than
one element, shell pass then insertion sort. -/
def shellInsertGo {α : Type} [Inhabited α] (less : α → α → Bool)
    (d : List α) (a b : Nat) : List α :=
  if b - a > 1 then
    insertionSortGo less (shellPassGo less b b d (a+6)) a b
  else d

/-- Go `quickSort(data, a, b, maxDepth)`.  The Go `for b-a > 12` loop
decrements `maxDepth` once per iteration, so the loop/recursion structure
is recursion on `maxDepth`: pivot, recurse into the smaller half with the
decremented budget, continue with the larger half; heapsort when the
budget hits zero; shell+insertion sort below 13 elements. -/
def quickSortGo {α : Type} [Inhabited α] (less : α → α → Bool) :
    Nat → List α → Nat → Nat → List α
  | 0, d, a, b =>
    if b - a > 12 then heapSortGo less d a b else shellInsertGo less d a b
  | md+1, d, a, b =>
    if b - a > 12 then
      match doPivotGo less d a b with
      | (d1, mlo, mhi) =>
        if mlo - a < b - mhi then
          quickSortGo less md (quickSortGo less md d1 a mlo) mhi b
        else
          quickSortGo less md (quickSortGo less md d1 mhi b) a mlo
    else shellInsertGo less d a b

/-- Halving loop of Go `maxDepth`:
`for i := n; i > 0; i >>= 1 { depth++ }` (first argument is the fuel). -/
def maxDepthLoopGo : Nat → Nat → Nat
  | 0, _ => 0
  | fuel+1, i => if i = 0 then 0 else maxDepthLoopGo fuel (i / 2) + 1

/-- Go `maxDepth(n) = 2 * (number of bits of n)`. -/
def maxDepthGo (n : Nat) : Nat := 2 * maxDepthLoopGo n n

/-- Go `sort.Sort(data)` on a slice presented as a list. -/
def SortGo {α : Type} [Inhabited α] (less : α → α → Bool) (l : List α) :
    List α :=
  quickSortGo less (maxDepthGo l.length) l 0 l.length

/-- Go string `<`: byte-wise lexicographic comparison of the UTF-8 bytes,
which on lists of code points is plain lexicographic comparison (UTF-8
byte order coincides with code-point order).  Written structurally because
the claim below is settled by evaluation. -/
def charListLtb : List Char → List Char → Bool
  | [], [] => false
  | [], _ :: _ => true
  | _ :: _, [] => false
  | a :: as, b :: bs =>
    if a.toNat < b.toNat then true
    else if b.toNat < a.toNat then false
    else charListLtb as bs

def goStringLtb (a b : String) : Bool := charListLtb a.data b.data

/-- `NewEndpointList(l).Sort().List()` with the ACTUAL `sort.Sort`
algorithm: build the `(key, endpoint)` groups, sort them by key with
`quickSortGo`, project the endpoints back out. -/
def sortEndpointsGo (l : List Endpoint) : List Endpoint :=
  (SortGo (fun a b => goStringLtb a.1 b.1)
    (l.map fun e => (EndpointToString e, e))).map fun g => g.2

/-- `RuleToCanonical` with the actual `sort.Sort` algorithm. -/
def RuleToCanonicalGo (unsorted : Rule) : Rule :=
  { unsorted with
    Ports := SortGo (fun a b => decide (a < b)) unsorted.Ports
    PortRanges := SortGo PortRangeSlice.Less unsorted.PortRanges }

/-- `IngressToCanonical` with the actual `sort.Sort` algorithm. -/
def IngressToCanonicalGo (unsorted : RomanaIngress) : RomanaIngress :=
  { Peers := sortEndpointsGo unsorted.Peers
    Rules := unsorted.Rules.map RuleToCanonicalGo }

/-- `PolicyToCanonical` with the actual `sort.Sort` algorithm in place of
the tie-free stable abstraction `sortByKey`. -/
def PolicyToCanonicalGo (unsorted : Policy) : Policy :=
  { Direction := unsorted.Direction
    Description := unsorted.Description
    Name := unsorted.Name
    ID := unsorted.ID
    ExternalID := unsorted.ExternalID
    AppliedTo := sortEndpointsGo unsorted.AppliedTo
    Ingress := unsorted.Ingress.map IngressToCanonicalGo }

/-- Thirteen endpoints, already ordered by canonical key, whose two middle
entries are DISTINCT endpoints with the SAME key `"g00000"` (the
delimiter-free concatenation identifies `Cidr="g0"` with `Cidr="g",
Dest="0"`).  Thirteen elements is the smallest slice `sort.Sort` sends
through `doPivot` rather than shell+insertion sort. -/
def tieEndpoints : List Endpoint :=
  [{ Cidr := "a" }, { Cidr := "b" }, { Cidr := "c" }, { Cidr := "d" },
    { Cidr := "e" }, { Cidr := "f" },
    { Cidr := "g0" }, { Cidr := "g", Dest := "0" },
    { Cidr := "h" }, { Cidr := "i" }, { Cidr := "j" }, { Cidr := "k" },
    { Cidr := "l" }]

/-- A policy whose `AppliedTo` is the tied 13-endpoint list. -/
def tiePolicy : Policy := { AppliedTo := tieEndpoints }

set_option maxRecDepth 10000 in
set_option maxHeartbeats 2000000 in
/-- C3 counterexample: with the ACTUAL `sort.Sort` algorithm,
`PolicyToCanonical` is not idempotent.  On `tiePolicy`'s 13 sorted
endpoints, `medianOfThree` swaps positions 0 and 6, the partition ends by
swapping positions 0 and 7, and the sub-sorts restore everything except
the tied pair, which comes out flipped; canonicalizing again flips it
back, so the second canonicalization differs from the first. -/
theorem PolicyToCanonicalGo_not_idempotent :
    PolicyToCanonicalGo (PolicyToCanonicalGo tiePolicy) ≠
      PolicyToCanonicalGo tiePolicy := by
  decide

/-! ### Content preservation (claim C10) -/

/-- C10: `PolicyToCanonical` preserves policy content: the five scalar
fields are copied; `AppliedTo` is a permutation of the input's; `Ingress`
has the same entries in the same order, with each entry's `Peers` a
permutation of the input entry's, the same number of `Rules` in order, and
within each rule the `Ports` and `PortRanges` permuted and all other rule
fields unchanged — nothing is added, dropped or altered. -/
theorem PolicyToCanonical_preserves_content (p : Policy) :
    (PolicyToCanonical p).Direction = p.Direction ∧
    (PolicyToCanonical p).Description = p.Description ∧
    (PolicyToCanonical p).Name = p.Name ∧
    (PolicyToCanonical p).ID = p.ID ∧
    (PolicyToCanonical p).ExternalID = p.ExternalID ∧
    (PolicyToCanonical p).AppliedTo.Perm p.AppliedTo ∧
    (PolicyToCanonical p).Ingress.length = p.Ingress.length ∧
    List.Forall₂ (fun j i =>
        j.Peers.Perm i.Peers ∧
        j.Rules.length = i.Rules.length ∧
        List.Forall₂ (fun s r =>
            s.Protocol = r.Protocol ∧ s.Ports.Perm r.Ports ∧
            s.PortRanges.Perm r.PortRanges ∧ s.IcmpType = r.IcmpType ∧
            s.IcmpCode = r.IcmpCode ∧ s.IsStateful = r.IsStateful)
          j.Rules i.Rules)
      (PolicyToCanonical p).Ingress p.Ingress := by
  refine ⟨rfl, rfl, rfl, rfl, rfl, sortByKey_perm _ _, by
    simp [PolicyToCanonical], ?_⟩
  show List.Forall₂ _ (p.Ingress.map IngressToCanonical) p.Ingress
  rw [List.forall₂_map_left_iff]
  refine List.forall₂_same.mpr fun i _ => ⟨sortByKey_perm _ _, by
    simp [IngressToCanonical], ?_⟩
  show List.Forall₂ _ (i.Rules.map RuleToCanonical) i.Rules
  rw [List.forall₂_map_left_iff]
  exact List.forall₂_same.mpr fun r _ =>
    ⟨rfl, sortByKey_perm _ _, sortByKey_perm _ _, rfl, rfl, rfl⟩

/-! ### Order-independence (claim C1) -/

/-- `s` is `r` with its `Ports` and `PortRanges` permuted and every other
field equal — the rule-level instance of the permutations claim C1 ranges
over. -/
def RuleEquiv (r s : Rule) : Prop :=
  r.Protocol = s.Protocol ∧ r.Ports.Perm s.Ports ∧
    r.PortRanges.Perm s.PortRanges ∧ r.IcmpType = s.IcmpType ∧
    r.IcmpCode = s.IcmpCode ∧ r.IsStateful = s.IsStateful

/-- `j` is `i` with its `Peers` permuted and each rule replaced by a
`RuleEquiv`-related rule at the same position. -/
def IngressEquiv (i j : RomanaIngress) : Prop :=
  i.Peers.Perm j.Peers ∧ List.Forall₂ RuleEquiv i.Rules j.Rules

theorem RuleToCanonical_congr {r s : Rule} (h : RuleEquiv r s)
    (hinj : KeyInj PortRangeSlice.key r.PortRanges) :
    RuleToCanonical r = RuleToCanonical s := by
  obtain ⟨h1, h2, h3, h4, h5, h6⟩ := h
  have hports : sortPorts r.Ports = sortPorts s.Ports :=
    sortByKey_congr_perm id h2 fun a _ b _ hab => hab
  have hranges : sortPortRanges r.PortRanges = sortPortRanges s.PortRanges :=
    sortByKey_congr_perm PortRangeSlice.key h3 hinj
  cases r; cases s
  simp_all [RuleToCanonical]

theorem map_RuleToCanonical_congr :
    ∀ {rs ss : List Rule}, List.Forall₂ RuleEquiv rs ss →
      (∀ r ∈ rs, KeyInj PortRangeSlice.key r.PortRanges) →
      rs.map RuleToCanonical = ss.map RuleToCanonical := by
  intro rs ss h
  induction h with
  | nil => intro _; rfl
  | @cons a b t₁ t₂ hab _ ih =>
    intro hks
    simp only [List.map_cons]
    rw [RuleToCanonical_congr hab (hks a (List.mem_cons_self a t₁)),
      ih fun r hr => hks r (List.mem_cons_of_mem a hr)]

theorem IngressToCanonical_congr {i j : RomanaIngress} (h : IngressEquiv i j)
    (hpeers : KeyInj EndpointToString i.Peers)
    (hranges : ∀ r ∈ i.Rules, KeyInj PortRangeSlice.key r.PortRanges) :
    IngressToCanonical i = IngressToCanonical j := by
  obtain ⟨hp, hr⟩ := h
  simp only [IngressToCanonical, sortEndpoints]
  rw [sortByKey_congr_perm EndpointToString hp hpeers,
    map_RuleToCanonical_congr hr hranges]

theorem map_IngressToCanonical_congr :
    ∀ {l₁ l₂ : List RomanaIngress}, List.Forall₂ IngressEquiv l₁ l₂ →
      (∀ i ∈ l₁, KeyInj EndpointToString i.Peers) →
      (∀ i ∈ l₁, ∀ r ∈ i.Rules, KeyInj PortRangeSlice.key r.PortRanges) →
      l₁.map IngressToCanonical = l₂.map IngressToCanonical := by
  intro l₁ l₂ h
  induction h with
  | nil => intro _ _; rfl
  | @cons a b t₁ t₂ hab _ ih =>
    intro hp hk
    simp only [List.map_cons]
    rw [IngressToCanonical_congr hab (hp a (List.mem_cons_self a t₁))
        (hk a (List.mem_cons_self a t₁)),
      ih (fun i hi => hp i (List.mem_cons_of_mem a hi))
        (fun i hi => hk i (List.mem_cons_of_mem a hi))]

/-- C1 (amended): canonicalization is order-independent for permutations of
`AppliedTo`, of each ingress entry's `Peers`, and of each rule's `Ports`
and `PortRanges`, provided no two distinct endpoints of a permuted endpoint
list share an `EndpointToString` key and no two distinct ranges of a
permuted `PortRanges` list share the `low - high` sort key.  (Permuting an
ingress entry's `Rules` is NOT covered: `IngressToCanonical` keeps `Rules`
in input order, see the counterexample.) -/
theorem PolicyToCanonical_order_independent (p q : Policy)
    (hD : p.Direction = q.Direction) (hDe : p.Description = q.Description)
    (hN : p.Name = q.Name) (hID : p.ID = q.ID)
    (hE : p.ExternalID = q.ExternalID)
    (hA : p.AppliedTo.Perm q.AppliedTo)
    (hAinj : KeyInj EndpointToString p.AppliedTo)
    (hI : List.Forall₂ IngressEquiv p.Ingress q.Ingress)
    (hPinj : ∀ i ∈ p.Ingress, KeyInj EndpointToString i.Peers)
    (hRinj : ∀ i ∈ p.Ingress, ∀ r ∈ i.Rules,
      KeyInj PortRangeSlice.key r.PortRanges) :
    PolicyToCanonical p = PolicyToCanonical q := by
  simp only [PolicyToCanonical, sortEndpoints]
  rw [hD, hDe, hN, hID, hE, sortByKey_congr_perm EndpointToString hA hAinj,
    map_IngressToCanonical_congr hI hPinj hRinj]

/-- Concrete endpoints with pairwise distinct canonical keys. -/
def epTenant1 : Endpoint := { TenantID := 1 }

def epTenant2 : Endpoint := { TenantID := 2 }

/-- Witness for C1 (amended): a concrete two-endpoint, two-port policy and
its permutation canonicalize identically. -/
theorem PolicyToCanonical_order_independent_witness :
    PolicyToCanonical
        { AppliedTo := [epTenant1, epTenant2]
          Ingress := [{ Peers := [epTenant2, epTenant1]
                        Rules := [{ Protocol := "TCP", Ports := [99, 80],
                                    PortRanges := [(1, 5), (2, 3)] }] }] } =
      PolicyToCanonical
        { AppliedTo := [epTenant2, epTenant1]
          Ingress := [{ Peers := [epTenant1, epTenant2]
                        Rules := [{ Protocol := "TCP", Ports := [80, 99],
                                    PortRanges := [(2, 3), (1, 5)] }] }] } :=
  PolicyToCanonical_order_independent _ _ rfl rfl rfl rfl rfl
    (by decide) (by decide)
    (List.Forall₂.cons
      ⟨by decide,
        List.Forall₂.cons ⟨rfl, by decide, by decide, rfl, rfl, rfl⟩
          List.Forall₂.nil⟩
      List.Forall₂.nil)
    (by decide) (by decide)

/-- A policy whose single ingress entry holds two distinct rules, and the
same policy with those two rules swapped. -/
def rulesPermPolicyA : Policy :=
  { Ingress := [{ Rules := [{ Protocol := "TCP" }, { Protocol := "UDP" }] }] }

def rulesPermPolicyB : Policy :=
  { Ingress := [{ Rules := [{ Protocol := "UDP" }, { Protocol := "TCP" }] }] }

/-- C1 counterexample: `rulesPermPolicyB` differs from `rulesPermPolicyA`
only by a permutation of one ingress entry's `Rules`, yet
`PolicyToCanonical` gives different results — `IngressToCanonical` does not
sort `Rules`, so canonicalization is not invariant under permutations of an
ingress entry's `Rules`. -/
theorem PolicyToCanonical_rules_perm_counterexample :
    List.Forall₂
        (fun i j => i.Peers = j.Peers ∧ i.Rules.Perm j.Rules)
        rulesPermPolicyA.Ingress rulesPermPolicyB.Ingress ∧
      rulesPermPolicyA.Direction = rulesPermPolicyB.Direction ∧
      rulesPermPolicyA.AppliedTo = rulesPermPolicyB.AppliedTo ∧
      PolicyToCanonical rulesPermPolicyA ≠ PolicyToCanonical rulesPermPolicyB := by
  refine ⟨List.Forall₂.cons ⟨rfl, by decide⟩ List.Forall₂.nil, rfl, rfl, ?_⟩
  decide

/-! ### Mutation of the input (claim C2) -/

/-- A policy whose single rule has out-of-order ports. -/
def mutPolicy : Policy :=
  { Ingress := [{ Rules := [{ Protocol := "TCP", Ports := [99, 80] }] }] }

/-- C2: `PolicyToCanonical` is NOT mutation-free.  `RuleToCanonical`'s
`sorted := unsorted` copies only the slice headers, so `sort.Sort` reorders
the caller's `Ports` backing array in place: after the call the argument's
rule reads `[80, 99]`, not the original `[99, 80]`. -/
theorem PolicyToCanonical_mutates_input :
    PolicyToCanonicalPost mutPolicy ≠ mutPolicy ∧
      (PolicyToCanonicalPost mutPolicy).Ingress.map
          (fun i => i.Rules.map (fun r => r.Ports)) =
        [[[80, 99]]] := by
  decide

/-! ### The canonical endpoint key (claim C4) -/

/-- Two DISTINCT endpoints whose delimiter-free keys coincide:
`TenantID=1` followed by `TenantName="0"` concatenates exactly like
`TenantID=10` followed by the empty name. -/
def epKeyClashA : Endpoint := { TenantID := 1, TenantName := "0" }

def epKeyClashB : Endpoint := { TenantID := 10 }

/-- C4 counterexample: `EndpointToString` is not injective — the
delimiter-free concatenation makes two distinct endpoints produce the same
key ("10000" both). -/
theorem EndpointToString_not_injective :
    EndpointToString epKeyClashA = EndpointToString epKeyClashB ∧
      epKeyClashA ≠ epKeyClashB := by
  decide

/-- An endpoint with its absent network-ID fields replaced by zero. -/
def normalizeEndpoint (e : Endpoint) : Endpoint :=
  { e with
    TenantNetworkID := some (e.TenantNetworkID.getD 0)
    SegmentNetworkID := some (e.SegmentNetworkID.getD 0) }

/-- C4 (amended): the forward direction holds — the key is a function of
the field values with an absent `TenantNetworkID`/`SegmentNetworkID` read
as zero, so two endpoints that agree up to that normalization produce equal
keys.  The converse fails (see the counterexample): the delimiter-free
concatenation can identify distinct endpoints. -/
theorem EndpointToString_eq_of_normalize_eq (e₁ e₂ : Endpoint)
    (h : normalizeEndpoint e₁ = normalizeEndpoint e₂) :
    EndpointToString e₁ = EndpointToString e₂ := by
  have key_norm : ∀ e : Endpoint,
      EndpointToString (normalizeEndpoint e) = EndpointToString e := by
    intro e
    simp [EndpointToString, normalizeEndpoint]
  rw [← key_norm e₁, ← key_norm e₂, h]

/-- Witness for C4 (amended): an absent `TenantNetworkID` and an explicit
zero give the same key. -/
theorem EndpointToString_eq_of_normalize_eq_witness :
    EndpointToString { TenantNetworkID := none } =
      EndpointToString { TenantNetworkID := some 0 } :=
  EndpointToString_eq_of_normalize_eq _ _ (by decide)

/-! ### Port-range ordering (claim C5) -/

/-- C5 counterexample: `PortRangeSlice.Less` computes `low - high` in
UNSIGNED Go arithmetic, not as the claimed non-positive integer.  The code
orders the zero-width range `[5,5]` strictly before `[1,4]`, while ordering
by the integer quantity `low - high` (`0` vs `-3`) puts `[1,4]` strictly
first. -/
theorem PortRangeLess_not_integer_order :
    PortRangeSlice.Less (5, 5) (1, 4) = true ∧
      ((1 : Int) - 4 < (5 : Int) - 5) := by
  constructor
  · decide
  · decide

/-- C5 (amended): for ranges with `low ≤ high < 2^64` the unsigned key
`low - high` equals `0` for a zero-width range and `2^64 - width`
otherwise.  Hence two ranges of equal width compare equal regardless of
position (that much of the claim survives), and the induced order is by
DECREASING width among positive-width ranges, with zero-width ranges
ordered before all others — not the order of the non-positive integer
`low - high`, which would put zero-width ranges last. -/
theorem PortRangeSlice.Less_spec (p q : PortRange)
    (hp : p.1 ≤ p.2) (hq : q.1 ≤ q.2)
    (hp2 : p.2 < 2 ^ 64) (hq2 : q.2 < 2 ^ 64) :
    (PortRangeSlice.Less p q = true ↔
      (q.2 - q.1 ≠ 0 ∧ (p.2 - p.1 = 0 ∨ q.2 - q.1 < p.2 - p.1))) ∧
      (p.2 - p.1 = q.2 - q.1 →
        PortRangeSlice.Less p q = false ∧ PortRangeSlice.Less q p = false) := by
  unfold PortRangeSlice.Less PortRangeSlice.key usub
  constructor
  · simp only [decide_eq_true_eq]
    omega
  · intro hw
    simp only [decide_eq_false_iff_not]
    omega

/-- Witness for C5 (amended), at `p = (1, 4)`, `q = (2, 3)`. -/
theorem PortRangeSlice.Less_spec_witness :
    (PortRangeSlice.Less (1, 4) (2, 3) = true ↔
      ((3 : Nat) - 2 ≠ 0 ∧ ((4 : Nat) - 1 = 0 ∨ (3 : Nat) - 2 < (4 : Nat) - 1)))
      ∧ ((4 : Nat) - 1 = (3 : Nat) - 2 →
        PortRangeSlice.Less (1, 4) (2, 3) = false ∧
          PortRangeSlice.Less (2, 3) (1, 4) = false) :=
  PortRangeSlice.Less_spec (1, 4) (2, 3) (by decide) (by decide)
    (by decide) (by decide)

/-! ### Scenario C (claim C6) -/

/-- The rule of Scenario C: `Rule{Protocol:"TCP", Ports:[99,80,8080]}`. -/
def scenarioCRule : Rule := { Protocol := "TCP", Ports := [99, 80, 8080] }

/-- C6 counterexample: the canonical string of the Scenario C rule does not
start with `"TCP808099"`. -/
theorem RuleToString_scenarioC_counterexample :
    (RuleToString scenarioCRule).take 9 ≠ "TCP808099" := by
  decide

/-- C6 (amended): the Scenario C rule canonicalizes to
`Ports = [80, 99, 8080]` and its canonical string is
`"TCP8099808000false"` — the protocol, the ascending ports `80 99 8080`
concatenated, the (empty) port ranges, then the icmp type `0`, icmp code
`0` and statefulness `false`.  It therefore starts with `"TCP80998080"`,
not `"TCP808099"`. -/
theorem RuleToString_scenarioC :
    (RuleToCanonical scenarioCRule).Ports = [80, 99, 8080] ∧
      RuleToString scenarioCRule = "TCP8099808000false" := by
  constructor
  · decide
  · decide

/-! ### Chain lifecycle manager (claims C7, C8, C9)

The bodies of the firewall functions are not among the sources — only
their tests (`TestDisallowEmptySubstring`, `TestDivertTraffic`,
`TestCreateChains`) are.  The definitions below are therefore modelled from
the spec (and checked against the command traces the tests expect).  An
executed pass is represented by the list of issued command strings; the
process-execution collaborator is an oracle mapping a command to
`Except.ok ()` (exit status 0) or `Except.error msg`. -/

/-- `sub` occurs inside `s` (for non-empty `sub`). -/
def containsSubstr (sub s : String) : Bool := 1 < (s.splitOn sub).length

/-- Modelled from the spec: the body of `deleteIPtablesRulesBySubstring` is
missing from the sources (only `TestDisallowEmptySubstring` is present).
Per the spec, an empty substring is rejected with a ValidationError before
any side effect; otherwise every rule whose text contains the substring is
removed, one delete command per removed rule.  Returns the outcome (the
remaining rules) and the list of issued delete commands. -/
def deleteIPtablesRulesBySubstring (substring : String)
    (rules : List String) : Except String (List String) × List String :=
  if substring = "" then
    (Except.error "empty substring disallowed in deleteIPtablesRulesBySubstring", [])
  else
    (Except.ok (rules.filter fun r => !(containsSubstr substring r)),
      (rules.filter fun r => containsSubstr substring r).map
        fun r => "/sbin/iptables -w -D " ++ r)

/-- C7: called with the empty string, the bulk delete always returns a
ValidationError and issues no command — the empty-substring input is
rejected before any side effect. -/
theorem deleteBySubstring_empty_rejected (rules : List String) :
    deleteIPtablesRulesBySubstring "" rules =
      (Except.error "empty substring disallowed in deleteIPtablesRulesBySubstring",
        []) :=
  rfl

/-- Modelled from the spec: the body of
`DivertTrafficToRomanaIPtablesChain` is missing from the sources (only its
tests).  The ensure step runs the iptables check command (`-C`) for the
diversion rule; on success the rule is present and nothing more is issued;
on ANY error — absence of the rule or a failed query — it issues the
append command (`-A`) for the same rule.  `checkOutcome` is what the
executor returns for the check command. -/
def DivertTrafficToRomanaIPtablesChain (checkOutcome : Except String Unit)
    (iface chain : String) : List String :=
  let ruleSpec := "INPUT -i " ++ iface ++ " -j " ++ chain
  let checkCmd := "/sbin/iptables -w -C " ++ ruleSpec
  let appendCmd := "/sbin/iptables -A " ++ ruleSpec
  match checkOutcome with
  | Except.ok _ => [checkCmd]
  | Except.error _ => [checkCmd, appendCmd]

/-- C8: whenever the existence check returns an error, the manager treats
the rule as not present and the failed check command (`-C`) is followed by
the append command (`-A`) for the same diversion rule. -/
theorem divertTraffic_check_error_appends (e iface chain : String)
    (outcome : Except String Unit) (h : outcome = Except.error e) :
    DivertTrafficToRomanaIPtablesChain outcome iface chain =
      ["/sbin/iptables -w -C " ++ ("INPUT -i " ++ iface ++ " -j " ++ chain),
        "/sbin/iptables -A " ++ ("INPUT -i " ++ iface ++ " -j " ++ chain)] := by
  subst h
  rfl

/-- Witness for C8: the trace of `TestDivertTraffic` — a failing executor
produces exactly the check followed by the append, for `eth0` and
`ROMANA-INPUT`. -/
theorem divertTraffic_check_error_appends_witness :
    DivertTrafficToRomanaIPtablesChain (Except.error "Rule not found")
        "eth0" "ROMANA-INPUT" =
      ["/sbin/iptables -w -C INPUT -i eth0 -j ROMANA-INPUT",
        "/sbin/iptables -A INPUT -i eth0 -j ROMANA-INPUT"] :=
  divertTraffic_check_error_appends "Rule not found" "eth0" "ROMANA-INPUT"
    _ rfl

/-- One idempotent ensure operation of the chain lifecycle: a query command
and the mutating command issued only when the query does not report the
desired state. -/
structure EnsureStep where
  queryCmd : String
  mutateCmd : String
deriving DecidableEq

/-- Modelled from the spec: run one ensure operation — query first, mutate
only if the query does not report the desired state as present (an error is
treated as "not present"). -/
def runEnsure (oracle : String → Except String Unit) (s : EnsureStep) :
    List String :=
  match oracle s.queryCmd with
  | Except.ok _ => [s.queryCmd]
  | Except.error _ => [s.queryCmd, s.mutateCmd]

/-- Modelled from the spec: a chain-lifecycle reconciliation pass is the
sequence of its ensure operations; its trace is the concatenation of the
steps' traces. -/
def reconcilePass (oracle : String → Except String Unit)
    (steps : List EnsureStep) : List String :=
  (steps.map (runEnsure oracle)).flatten

/-- C9: a reconciliation pass against a host whose existence queries all
succeed and report the desired state issues exactly the query commands and
no mutating command. -/
theorem reconcilePass_no_mutation (oracle : String → Except String Unit)
    (steps : List EnsureStep)
    (h : ∀ s ∈ steps, oracle s.queryCmd = Except.ok ()) :
    reconcilePass oracle steps = steps.map (fun s => s.queryCmd) := by
  induction steps with
  | nil => rfl
  | cons a t ih =>
    have ha := h a (List.mem_cons_self a t)
    have ht : ∀ s ∈ t, oracle s.queryCmd = Except.ok () := fun s hs =>
      h s (List.mem_cons_of_mem a hs)
    simp only [reconcilePass, List.map_cons, List.flatten_cons] at *
    rw [ih ht, runEnsure, ha]
    rfl

/-- The three ensure steps of `CreateChains` (list each Romana chain,
create it when missing), as exercised by `TestCreateChains`. -/
def createChainsSteps : List EnsureStep :=
  [⟨"/sbin/iptables -w -L ROMANA-INPUT", "/sbin/iptables -w -N ROMANA-INPUT"⟩,
    ⟨"/sbin/iptables -w -L ROMANA-FORWARD-IN",
      "/sbin/iptables -w -N ROMANA-FORWARD-IN"⟩,
    ⟨"/sbin/iptables -w -L ROMANA-FORWARD-OUT",
      "/sbin/iptables -w -N ROMANA-FORWARD-OUT"⟩]

/-- Witness for C9: with an executor for which every query succeeds, the
`CreateChains` pass issues only the three list commands. -/
theorem reconcilePass_no_mutation_witness :
    reconcilePass (fun _ => Except.ok ()) createChainsSteps =
      ["/sbin/iptables -w -L ROMANA-INPUT",
        "/sbin/iptables -w -L ROMANA-FORWARD-IN",
        "/sbin/iptables -w -L ROMANA-FORWARD-OUT"] :=
  reconcilePass_no_mutation (fun _ => Except.ok ()) createChainsSteps
    (fun _ _ => rfl)

end Romana
